import Mathlib

/-!
Verification of the MADNESS repository fragment (multiresolution adaptive
numerical scientific simulation) against its natural-language specification.

The development shallowly embeds:
* the exchange-correlation wrapper `src/apps/chem/xcfunctional_libxc.cc`
  (`make_libxc_args`, `exc`, `vxc`, `fxc_apply`);
* the function-handle facade `src/lib/mra/mra.h` (`Function`: default/copy
  construction, `eval`, `is_compressed`, `compress`, `reconstruct`,
  `print_tree`, `copy`);
* the KAIN coefficient solver `src/lib/linalg/kain.cc`;
* the compress/reconstruct two-scale transforms and the adaptive-refinement
  tree builder.  Their implementation (`mra/funcimpl.h`) is not part of the
  repository fragment, so those two are modelled from the specification,
  sections 4.1-4.3, as stated in their doc comments.

C `double` values are modelled as `Option ℚ`: `none` plays the role of NaN
(it is absorbing for arithmetic, as NaN is), `some q` is an ordinary finite
value.  Machine floating point rounding is not modelled; all claims treated
here are about control flow, data flow and exact algebraic structure, not
about rounding.
-/

namespace Madness

/-- A C++ failure surfaced to the caller: a `MADNESS_ASSERT` abort, a
`MADNESS_EXCEPTION`, or a plain C++ `throw` of a string literal. -/
inductive Err where
  | assertFailed : String → Err
  | madnessException : String → Err
  | cppThrow : String → Err
deriving DecidableEq, Repr

/-- Model of a C `double`: `none` is NaN, `some q` a finite value. -/
abbrev MDouble := Option ℚ

/-- Model of `isnan_x` (xcfunctional_libxc.cc lines 17-20): true exactly on
NaN. -/
def isnan_x (x : MDouble) : Bool := x.isNone

/-- NaN-propagating addition. -/
def madd (a b : MDouble) : MDouble :=
  match a, b with
  | some x, some y => some (x + y)
  | _, _ => none

/-- NaN-propagating multiplication. -/
def mmul (a b : MDouble) : MDouble :=
  match a, b with
  | some x, some y => some (x * y)
  | _, _ => none

/-- Multiplication by a finite literal constant (e.g. `2.0*rhoa[i]`). -/
def mscale (c : ℚ) (x : MDouble) : MDouble := x.map (fun v => c * v)

/-- Model of `std::max(c, x)` with a finite literal first argument: C++
`std::max(a,b)` is `(a<b) ? b : a`, and any comparison with NaN is false, so
`std::max(c, NaN) = c`. -/
def mmax (c : ℚ) (x : MDouble) : MDouble :=
  match x with
  | some v => some (max c v)
  | none => some c

/-- Elementwise addition of coefficient arrays (`Tensor::operator+=`). -/
def vadd (a b : List MDouble) : List MDouble := List.zipWith madd a b

/-- Elementwise multiplication of coefficient arrays (`Tensor::emul`). -/
def vemul (a b : List MDouble) : List MDouble := List.zipWith mmul a b

/-- Scaling of a coefficient array by a finite weight
(`Tensor::operator*(double)`). -/
def vscale (c : ℚ) (a : List MDouble) : List MDouble := a.map (mscale c)

/-- libxc functional families used by the wrapper (`XC_FAMILY_LDA`,
`XC_FAMILY_GGA`, `XC_FAMILY_HYB_GGA`; `other` covers every remaining family,
hitting the `default:` branches of the switches). -/
inductive XCFamily where
  | lda
  | gga
  | hybGga
  | other
deriving DecidableEq, Repr

/-- The `xc_contribution` selector (declared in the missing header
`chem/xcfunctional.h`; the constructor names are the ones used at the call
sites in xcfunctional_libxc.cc). -/
inductive XContrib where
  | potential_rho
  | potential_same_spin
  | potential_mixed_spin
  | kernel_second_semilocal
  | kernel_second_local
  | kernel_first_semilocal
deriving DecidableEq, Repr

/-- The state of an `XCfunctional` object that the three evaluation routines
read: the spin flag, the derivative order (`nderiv`), and the list of
(family, weight) pairs standing for `funcs` (the libxc functional objects are
opaque; only their family and weight are consumed by the control flow). -/
structure XCfunctional where
  spin_polarized : Bool
  nderiv : Nat
  funcs : List (XCFamily × ℚ)

/-- `XCfunctional::is_lda`: `nderiv == 0`. -/
def XCfunctional.is_lda (xc : XCfunctional) : Bool := xc.nderiv = 0

/-- `XCfunctional::is_gga`: `nderiv == 1`. -/
def XCfunctional.is_gga (xc : XCfunctional) : Bool := xc.nderiv = 1

/-- The libxc evaluation routines consumed by the wrapper, modelled as opaque
pure functions from the grid size and input arrays to output arrays
(libxc is an external library; spec section 6 treats it as an opaque
collaborator). -/
structure LibXC where
  lda_exc : Nat → List MDouble → List MDouble
  gga_exc : Nat → List MDouble → List MDouble → List MDouble
  lda_vxc : Nat → List MDouble → List MDouble
  gga_vxc : Nat → List MDouble → List MDouble → List MDouble × List MDouble
  lda_fxc : Nat → List MDouble → List MDouble
  gga_fxc : Nat → List MDouble → List MDouble →
      List MDouble × List MDouble × List MDouble

/-- Index of `enum_rhoa` in the `xc_args` vector.  Modelled from the spec:
the enum values live in the missing header `chem/xcfunctional.h`; only
distinctness of the indices matters here. -/
def enum_rhoa : Nat := 0

/-- Index of `enum_rhob` in the `xc_args` vector (missing header). -/
def enum_rhob : Nat := 1

/-- Index of `enum_rho_pt` in the `xc_args` vector (missing header). -/
def enum_rho_pt : Nat := 2

/-- Index of `enum_chi_aa` in the `xc_args` vector (missing header). -/
def enum_chi_aa : Nat := 3

/-- Index of `enum_chi_ab` in the `xc_args` vector (missing header). -/
def enum_chi_ab : Nat := 4

/-- Index of `enum_chi_bb` in the `xc_args` vector (missing header). -/
def enum_chi_bb : Nat := 5

/-- Index of `enum_sigma_pta_div_rho` in the `xc_args` vector (missing
header). -/
def enum_sigma_pta_div_rho : Nat := 6

/-- `XCfunctional::make_libxc_args` (xcfunctional_libxc.cc lines 172-304).
Copies the madness xc_args into libxc layout, munging the density.  `munge`
and `binary_munge` are declared in the missing header `chem/xcfunctional.h`
and are taken as opaque parameters.  Returns `(rho, sigma, rho_pt,
sigma_pt)`; arrays the C++ leaves as empty default tensors are returned as
`[]`.  Array reads `a[i]` are modelled as `List.getD i`; the reads of the
possibly-NULL beta arrays default to `some 0`, mirroring the zero-filled
`dummy` tensor substituted for NULL pointers. -/
def make_libxc_args (xc : XCfunctional)
    (munge : MDouble → MDouble) (binary_munge : MDouble → MDouble → MDouble)
    (xc_args : List (List MDouble)) (need_response : Bool) :
    Except Err (List MDouble × List MDouble × List MDouble × List MDouble) :=
  let np := (xc_args.getD 0 []).length
  if !xc.spin_polarized then
    if xc.is_lda then
      let rhoa := xc_args.getD enum_rhoa []
      let rho := (List.range np).map (fun i => munge (mscale 2 (rhoa.getD i none)))
      let rho_pt :=
        if need_response then
          let rho_pt1 := xc_args.getD enum_rho_pt []
          (List.range np).map (fun i => binary_munge (rho_pt1.getD i none) (rhoa.getD i none))
        else []
      .ok (rho, [], rho_pt, [])
    else if xc.is_gga then
      let rhoa := xc_args.getD enum_rhoa []
      let chiaa := xc_args.getD enum_chi_aa []
      let rho := (List.range np).map (fun i => munge (mscale 2 (rhoa.getD i none)))
      let sigma := (List.range np).map
        (fun i => mmax (1 / 10 ^ 14) (mmul (mmul (rho.getD i none) (rho.getD i none)) (chiaa.getD i none)))
      if need_response then
        let rho_pt1 := xc_args.getD enum_rho_pt []
        let sig_pt1 := xc_args.getD enum_sigma_pta_div_rho []
        let rho_pt := (List.range np).map
          (fun i => binary_munge (rho_pt1.getD i none) (rhoa.getD i none))
        let sigma_pt := (List.range np).map
          (fun i => mmul (rho.getD i none) (sig_pt1.getD i none))
        .ok (rho, sigma, rho_pt, sigma_pt)
      else
        .ok (rho, sigma, [], [])
    else
      .error (.madnessException "only LDA and GGA available in xcfunctional")
  else
    if xc.is_lda then
      let rhoa := xc_args.getD enum_rhoa []
      let rhob := xc_args.getD enum_rhob []
      let rho := (List.range np).flatMap
        (fun i => [munge (rhoa.getD i none), munge (rhob.getD i (some 0))])
      if need_response then
        .error (.madnessException "no spin polarized DFT response in xcfunctional")
      else
        .ok (rho, [], [], [])
    else if xc.is_gga then
      let rhoa := xc_args.getD enum_rhoa []
      let rhob := xc_args.getD enum_rhob []
      let chiaa := xc_args.getD enum_chi_aa []
      let chiab := xc_args.getD enum_chi_ab []
      let chibb := xc_args.getD enum_chi_bb []
      let rho := (List.range np).flatMap
        (fun i => [munge (rhoa.getD i none), munge (rhob.getD i (some 0))])
      let sigma := (List.range np).flatMap
        (fun i =>
          let ra := munge (rhoa.getD i none)
          let rb := munge (rhob.getD i (some 0))
          [mmax (1 / 10 ^ 14) (mmul (mmul ra ra) (chiaa.getD i (some 0))),
           mmax (1 / 10 ^ 14) (mmul (mmul ra rb) (chiab.getD i (some 0))),
           mmax (1 / 10 ^ 14) (mmul (mmul rb rb) (chibb.getD i (some 0)))])
      if need_response then
        .error (.madnessException "no spin polarized DFT response in xcfunctional")
      else
        .ok (rho, sigma, [], [])
    else
      .error (.madnessException "only LDA and GGA available in xcfunctional")

/-- The accumulation loop of `XCfunctional::exc` (lines 319-346): for each
functional, obtain the energy density `work` from libxc and accumulate
`res[j] += work[j]*dens[j]*weight` (non-polarized) or
`res[j] += work[j]*(dens[2j+1]+dens[2j])*weight` (polarized). -/
def excLoop (xc : XCfunctional) (lib : LibXC) (np : Nat)
    (rho sigma : List MDouble) :
    List (XCFamily × ℚ) → List MDouble → Except Err (List MDouble)
  | [], res => .ok res
  | (fam, w) :: rest, res =>
    match fam with
    | .lda =>
      let work := lib.lda_exc np rho
      let res' := (List.range np).map (fun j =>
        if xc.spin_polarized then
          madd (res.getD j none)
            (mmul (mmul (work.getD j none)
              (madd (rho.getD (2 * j + 1) none) (rho.getD (2 * j) none))) (some w))
        else
          madd (res.getD j none)
            (mmul (mmul (work.getD j none) (rho.getD j none)) (some w)))
      excLoop xc lib np rho sigma rest res'
    | .gga =>
      let work := lib.gga_exc np rho sigma
      let res' := (List.range np).map (fun j =>
        if xc.spin_polarized then
          madd (res.getD j none)
            (mmul (mmul (work.getD j none)
              (madd (rho.getD (2 * j + 1) none) (rho.getD (2 * j) none))) (some w))
        else
          madd (res.getD j none)
            (mmul (mmul (work.getD j none) (rho.getD j none)) (some w)))
      excLoop xc lib np rho sigma rest res'
    | .hybGga =>
      let work := lib.gga_exc np rho sigma
      let res' := (List.range np).map (fun j =>
        if xc.spin_polarized then
          madd (res.getD j none)
            (mmul (mmul (work.getD j none)
              (madd (rho.getD (2 * j + 1) none) (rho.getD (2 * j) none))) (some w))
        else
          madd (res.getD j none)
            (mmul (mmul (work.getD j none) (rho.getD j none)) (some w)))
      excLoop xc lib np rho sigma rest res'
    | .other => .error (.cppThrow "HOW DID WE GET HERE?")

/-- `XCfunctional::exc` (xcfunctional_libxc.cc lines 307-348): make the libxc
arguments, zero the result, run the accumulation loop over the functionals,
and return the result.  Note: no NaN check is performed on the result. -/
def exc (xc : XCfunctional) (lib : LibXC)
    (munge : MDouble → MDouble) (binary_munge : MDouble → MDouble → MDouble)
    (t : List (List MDouble)) : Except Err (List MDouble) :=
  match make_libxc_args xc munge binary_munge t false with
  | .error e => .error e
  | .ok (rho, sigma, _, _) =>
    let np := (t.getD 0 []).length
    let res0 : List MDouble := List.replicate np (some 0)
    excLoop xc lib np rho sigma xc.funcs res0

/-- The final defensive check of `vxc` and `fxc_apply`: fail fatally if any
entry of the result array (which has exactly `np` entries by construction)
is NaN, otherwise return it. -/
def nanCheck (e : Err) (res : List MDouble) : Except Err (List MDouble) :=
  if res.any isnan_x then .error e else .ok res

/-- The accumulation loop of `XCfunctional::vxc` (lines 371-441).  `ispin`
is the C++ `int ispin` (only 0 or 1 occur at call sites, so it is modelled
as a `Nat` index).  For the GGA branches the selector `xc_contrib` picks the
accumulated quantity; unhandled selectors hit `throw "ouch"`. -/
def vxcLoop (xc : XCfunctional) (lib : LibXC) (np : Nat) (ispin : Nat)
    (xc_contrib : XContrib) (nvrho nvsig : Nat) (rho sigma : List MDouble) :
    List (XCFamily × ℚ) → List MDouble → Except Err (List MDouble)
  | [], res => .ok res
  | (fam, w) :: rest, res =>
    match fam with
    | .lda =>
      let vr := lib.lda_vxc np rho
      let res' := (List.range np).map (fun j =>
        madd (res.getD j none) (mmul (vr.getD (nvrho * j + ispin) none) (some w)))
      vxcLoop xc lib np ispin xc_contrib nvrho nvsig rho sigma rest res'
    | .gga | .hybGga =>
      let vrvs := lib.gga_vxc np rho sigma
      let vr := vrvs.1
      let vs := vrvs.2
      if xc.spin_polarized then
        match xc_contrib with
        | .potential_rho =>
          let res' := (List.range np).map (fun j =>
            madd (res.getD j none) (mmul (vr.getD (nvrho * j + ispin) none) (some w)))
          vxcLoop xc lib np ispin xc_contrib nvrho nvsig rho sigma rest res'
        | .potential_same_spin =>
          let res' := (List.range np).map (fun j =>
            madd (res.getD j none)
              (mmul (mmul (vs.getD (nvsig * j + 2 * ispin) none) (some w))
                (rho.getD (nvrho * j + ispin) none)))
          vxcLoop xc lib np ispin xc_contrib nvrho nvsig rho sigma rest res'
        | .potential_mixed_spin =>
          let res' := (List.range np).map (fun j =>
            madd (res.getD j none)
              (mmul (mmul (vs.getD (nvsig * j + 1) none) (some w))
                (rho.getD (nvrho * j + (1 - ispin)) none)))
          vxcLoop xc lib np ispin xc_contrib nvrho nvsig rho sigma rest res'
        | _ => .error (.cppThrow "ouch")
      else
        match xc_contrib with
        | .potential_rho =>
          let res' := (List.range np).map (fun j =>
            madd (res.getD j none) (mmul (vr.getD j none) (some w)))
          vxcLoop xc lib np ispin xc_contrib nvrho nvsig rho sigma rest res'
        | .potential_same_spin =>
          let res' := (List.range np).map (fun j =>
            madd (res.getD j none)
              (mmul (mmul (vs.getD j none) (some w)) (rho.getD j none)))
          vxcLoop xc lib np ispin xc_contrib nvrho nvsig rho sigma rest res'
        | _ => .error (.cppThrow "ouch")
    | .other => .error (.madnessException "unknown XC_FAMILY xcfunctional::vxc")

/-- The tail of `XCfunctional::vxc` after `make_libxc_args` (lines 356-446):
the spin-dependent intermediate strides, the zeroed result, the
accumulation loop, and the final NaN defensive check. -/
def vxcFinish (xc : XCfunctional) (lib : LibXC) (np ispin : Nat)
    (xc_contrib : XContrib) (rho sigma : List MDouble) :
    Except Err (List MDouble) :=
  match vxcLoop xc lib np ispin xc_contrib (if xc.spin_polarized then 2 else 1)
      (if xc.spin_polarized then 3 else 1) rho sigma xc.funcs
      (List.replicate np (some 0)) with
  | .error e => .error e
  | .ok res => nanCheck (.madnessException "NaN in xcfunctional::vxc") res

/-- `XCfunctional::vxc` (xcfunctional_libxc.cc lines 351-447): make the libxc
arguments, zero the result, run the accumulation loop, then perform the NaN
defensive check on the result before returning it. -/
def vxc (xc : XCfunctional) (lib : LibXC)
    (munge : MDouble → MDouble) (binary_munge : MDouble → MDouble → MDouble)
    (t : List (List MDouble)) (ispin : Nat) (xc_contrib : XContrib) :
    Except Err (List MDouble) :=
  match make_libxc_args xc munge binary_munge t false with
  | .error e => .error e
  | .ok (rho, sigma, _, _) =>
    vxcFinish xc lib (t.getD 0 []).length ispin xc_contrib rho sigma

/-- The mutable intermediate tensors of `fxc_apply` (lines 469-473),
allocated zero-filled once before the functional loop and overwritten in
place by the libxc calls of each iteration. -/
structure FxcInter where
  v2rho2 : List MDouble
  v2rhosigma : List MDouble
  v2sigma2 : List MDouble
  vrho : List MDouble
  vsigma : List MDouble

/-- One iteration's update of the intermediate tensors (lines 479-526): the
libxc call of the matched family overwrites its output tensors, the others
keep their previous contents.  An unknown family raises
`MADNESS_EXCEPTION`.  Note the GGA branch computes nothing when
`xc_contrib` selects none of its cases (the C++ `if`/`else if` chain has no
final `else`). -/
def fxcInterUpdate (lib : LibXC) (np : Nat) (xc_contrib : XContrib)
    (rho sigma : List MDouble) (fam : XCFamily) (inter : FxcInter) :
    Except Err FxcInter :=
  match fam with
  | .lda => .ok { inter with v2rho2 := lib.lda_fxc np rho }
  | .gga | .hybGga =>
    if xc_contrib = .kernel_second_semilocal ∨ xc_contrib = .kernel_second_local then
      let out := lib.gga_fxc np rho sigma
      .ok { inter with v2rho2 := out.1, v2rhosigma := out.2.1, v2sigma2 := out.2.2 }
    else if xc_contrib = .kernel_first_semilocal then
      let out := lib.gga_vxc np rho sigma
      .ok { inter with vrho := out.1, vsigma := out.2 }
    else
      .ok inter
  | .other => .error (.madnessException "unknown XC_FAMILY xcfunctional::fxc")

/-- `result1` of one `fxc_apply` loop iteration (lines 528-541): the kernel
contribution built from the intermediates according to `xc_contrib`; any
other selector raises `MADNESS_EXCEPTION`. -/
def fxcResult1 (xc : XCfunctional) (xc_contrib : XContrib)
    (rho_pt sigma_pt : List MDouble) (inter : FxcInter) :
    Except Err (List MDouble) :=
  match xc_contrib with
  | .kernel_second_local =>
    let base := vemul inter.v2rho2 rho_pt
    .ok (if xc.is_gga then vadd base (vscale 2 (vemul inter.v2rhosigma sigma_pt)) else base)
  | .kernel_second_semilocal =>
    .ok (vadd (vscale 2 (vemul inter.v2rhosigma rho_pt))
      (vscale 4 (vemul inter.v2sigma2 sigma_pt)))
  | .kernel_first_semilocal =>
    .ok (vscale 2 inter.vsigma)
  | _ => .error (.madnessException "confused xc_contrib in fxc_apply")

/-- The accumulation loop of `XCfunctional::fxc_apply` (lines 478-546),
threading the intermediate tensors (which persist across iterations, as in
the C++ where they are allocated outside the loop) and the result, into
which each iteration accumulates `result1` weighted by the functional
weight (line 545). -/
def fxcLoop (xc : XCfunctional) (lib : LibXC) (np : Nat)
    (xc_contrib : XContrib) (rho sigma rho_pt sigma_pt : List MDouble) :
    List (XCFamily × ℚ) → FxcInter → List MDouble → Except Err (List MDouble)
  | [], _, result => .ok result
  | (fam, w) :: rest, inter, result =>
    match fxcInterUpdate lib np xc_contrib rho sigma fam inter with
    | .error e => .error e
    | .ok inter' =>
      match fxcResult1 xc xc_contrib rho_pt sigma_pt inter' with
      | .error e => .error e
      | .ok result1 =>
        fxcLoop xc lib np xc_contrib rho sigma rho_pt sigma_pt rest inter'
          (vadd result (vscale w result1))

/-- The zero-filled intermediate tensors of `fxc_apply` (lines 463-473),
sized by the spin dimensions `nspin`, `nspin2`, `nspin3`. -/
def fxcInter0 (xc : XCfunctional) (np : Nat) : FxcInter :=
  let nspin := if xc.spin_polarized then 2 else 1
  let nspin2 := nspin * (nspin + 1) / 2
  let nspin3 := nspin2 * (nspin2 + 1) / 2
  { v2rho2 := List.replicate (nspin2 * np) (some 0)
    v2rhosigma := List.replicate (nspin3 * np) (some 0)
    v2sigma2 := List.replicate (nspin3 * np) (some 0)
    vrho := List.replicate (nspin * np) (some 0)
    vsigma := List.replicate (nspin2 * np) (some 0) }

/-- The tail of `fxc_apply` after `make_libxc_args` (lines 460-552): zeroed
intermediates and result, the accumulation loop, and the final NaN
defensive check. -/
def fxcFinish (xc : XCfunctional) (lib : LibXC) (np : Nat)
    (xc_contrib : XContrib) (rho sigma rho_pt sigma_pt : List MDouble) :
    Except Err (List MDouble) :=
  match fxcLoop xc lib np xc_contrib rho sigma rho_pt sigma_pt xc.funcs
      (fxcInter0 xc np) (List.replicate np (some 0)) with
  | .error e => .error e
  | .ok res => nanCheck (.madnessException "NaN in xcfunctional::fxc_apply") res

/-- The body of `XCfunctional::fxc_apply` after the two entry assertions
(xcfunctional_libxc.cc lines 456-552): make the libxc arguments with
response quantities, zero the intermediates and the result, run the loop,
then perform the NaN defensive check on the result before returning it. -/
def fxcBody (xc : XCfunctional) (lib : LibXC)
    (munge : MDouble → MDouble) (binary_munge : MDouble → MDouble → MDouble)
    (t : List (List MDouble)) (xc_contrib : XContrib) :
    Except Err (List MDouble) :=
  match make_libxc_args xc munge binary_munge t true with
  | .error e => .error e
  | .ok (rho, sigma, rho_pt, sigma_pt) =>
    fxcFinish xc lib (t.getD 0 []).length xc_contrib rho sigma rho_pt sigma_pt

/-- `XCfunctional::fxc_apply` (xcfunctional_libxc.cc lines 450-553): assert
`!spin_polarized`, assert `ispin==0`, then run the body. -/
def fxc_apply (xc : XCfunctional) (lib : LibXC)
    (munge : MDouble → MDouble) (binary_munge : MDouble → MDouble → MDouble)
    (t : List (List MDouble)) (ispin : Nat) (xc_contrib : XContrib) :
    Except Err (List MDouble) :=
  if xc.spin_polarized then .error (.assertFailed "!spin_polarized")
  else if ispin ≠ 0 then .error (.assertFailed "ispin==0")
  else fxcBody xc lib munge binary_munge t xc_contrib

/-!
## The multiresolution tree and the two-scale transforms

Modelled from the spec (sections 3, 4.2, 4.3): the tree container
implementation `mra/funcimpl.h` is included by `mra/mra.h` but absent from
the repository fragment.  A reconstructed tree carries scaling coefficients
at its leaves only; a compressed tree carries scaling coefficients at the
root and wavelet coefficients at every other materialized node.  `m` is the
number of children of a box (`2^NDIM`); `V` is the type of one scaling
coefficient block, `D` of one wavelet coefficient block.
-/

/-- A tree in the reconstructed representation: every leaf carries scaling
coefficients, internal nodes carry none (spec section 3). -/
inductive STree (m : Nat) (V : Type) where
  | leaf : V → STree m V
  | node : (Fin m → STree m V) → STree m V

/-- The wavelet part of a compressed tree: every materialized non-root
interior node carries wavelet coefficients, leaves carry nothing
(spec section 3). -/
inductive WTree (m : Nat) (D : Type) where
  | leaf : WTree m D
  | node : D → (Fin m → WTree m D) → WTree m D

/-- A tree in the compressed representation: the root alone retains genuine
scaling coefficients `s0`, all descendants keep only wavelet coefficients
(spec sections 3 and 4.2). -/
structure CompTree (m : Nat) (V D : Type) where
  s0 : V
  w : WTree m D

/-- Modelled from the spec (section 4.2, `compress`): bottom-up, for a node
with children apply the two-scale filter to the children's scaling
coefficients, producing this node's wavelet coefficients and a coarser
scaling block forwarded to the parent; a leaf forwards its own scaling
block.  `fS` and `fD` are the two components of the fixed two-scale filter
matrices (read-only tables from `mra/twoscale.h`, absent from the
fragment). -/
def compressT {m : Nat} {V D : Type} (fS : (Fin m → V) → V) (fD : (Fin m → V) → D) :
    STree m V → V × WTree m D
  | .leaf s => (s, .leaf)
  | .node c =>
    let r := fun i => compressT fS fD (c i)
    (fS (fun i => (r i).1), .node (fD (fun i => (r i).1)) (fun i => (r i).2))

/-- `compress` as a map from the reconstructed to the compressed
representation (spec section 4.2). -/
def compressF {m : Nat} {V D : Type} (fS : (Fin m → V) → V) (fD : (Fin m → V) → D)
    (t : STree m V) : CompTree m V D :=
  ⟨(compressT fS fD t).1, (compressT fS fD t).2⟩

/-- Modelled from the spec (section 4.3, `reconstruct`): top-down, a node's
incoming scaling block combined with its own wavelet block through the
inverse two-scale filter `uF` yields each child's scaling block; a leaf
keeps the incoming scaling block. -/
def reconstructW {m : Nat} {V D : Type} (uF : V → D → Fin m → V) (s : V) :
    WTree m D → STree m V
  | .leaf => .leaf s
  | .node d c => .node (fun i => reconstructW uF (uF s d i) (c i))

/-- `reconstruct` as a map from the compressed to the reconstructed
representation (spec section 4.3). -/
def reconstructF {m : Nat} {V D : Type} (uF : V → D → Fin m → V)
    (ct : CompTree m V D) : STree m V :=
  reconstructW uF ct.s0 ct.w

/-- The leaf scaling coefficients of a reconstructed tree, in left-to-right
order. -/
def leafCoeffs {m : Nat} {V : Type} : STree m V → List V
  | .leaf s => [s]
  | .node c => ((List.finRange m).map (fun i => leafCoeffs (c i))).flatten

/-- A concrete two-scale filter instance used by the `Function` model and by
witnesses, for `m = 8` children (`NDIM = 3`, per `FUNCTION_INSTANTIATE_3`)
and rational coefficient blocks: the parent scaling block is the sum of the
children blocks. -/
def meanS (ss : Fin 8 → ℚ) : ℚ := ∑ i, ss i

/-- Detail component of the concrete filter: each child's deviation from the
mean. -/
def meanD (ss : Fin 8 → ℚ) : Fin 8 → ℚ := fun i => ss i - (∑ j, ss j) / 8

/-- Inverse of the concrete filter `meanS`/`meanD`. -/
def meanU (s : ℚ) (d : Fin 8 → ℚ) : Fin 8 → ℚ := fun i => d i + s / 8

/-!
## The Function handle facade (mra/mra.h)

`Function<T,NDIM>` holds `SharedPtr<FunctionImpl<T,NDIM>> impl`, null for a
default-constructed (uninitialized) handle: the handle is an
`Option Rep`, `none` standing for the null `impl`.  Facade operations that
may issue communication are threaded through a communication counter
(a `Nat`); operations that can abort return `Except Err`.
-/

/-- The representation state of an initialized `FunctionImpl`, per the spec
(section 3): exactly one of the two mutually exclusive representations. -/
inductive Rep where
  | sf : STree 8 ℚ → Rep
  | wav : CompTree 8 ℚ (Fin 8 → ℚ) → Rep

/-- `FunctionImpl::is_compressed`: the container's current representation
flag (modelled from the spec, section 3; `mra.h` documents the read as
involving no communication). -/
def Rep.isCompressed : Rep → Bool
  | .sf _ => false
  | .wav _ => true

/-- Modelled from the spec: `FunctionImpl::compress` (section 4.2), the
bottom-up transform into the wavelet basis, with the concrete filter
instance; already-compressed data is returned unchanged. -/
def implCompress : Rep → Rep
  | .sf t => .wav (compressF meanS meanD t)
  | .wav c => .wav c

/-- Modelled from the spec: `FunctionImpl::reconstruct` (section 4.3), the
top-down inverse transform into the scaling-function basis. -/
def implReconstruct : Rep → Rep
  | .wav c => .sf (reconstructF meanU c)
  | .sf t => .sf t

/-- A point in user coordinates (`coordT`), one rational per axis. -/
abbrev Coord := Fin 3 → ℚ

/-- Modelled from the spec (section 4.4): descend from the root toward the
leaf box containing the point, choosing at each level the child whose
sub-box contains it (compare each axis against the box midpoint), and
evaluate the leaf's polynomial expansion there (the expansion itself is
abstracted to the leaf's coefficient block). -/
def evalS : STree 8 ℚ → Coord → ℚ
  | .leaf s, _ => s
  | .node c, x =>
    let b : Fin 3 → Fin 2 := fun a => if x a < 1 / 2 then 0 else 1
    let i : Fin 8 := ⟨b 0 + 2 * b 1 + 4 * b 2, by omega⟩
    evalS (c i) (fun a => 2 * x a - (b a : ℚ))

/-- Modelled from the spec (section 4.7): `print_tree` renders a summary of
the tree; read-only. -/
def implPrint : Rep → List String
  | .sf _ => ["tree in scaling function basis"]
  | .wav _ => ["tree in wavelet basis"]

/-- `Function::is_compressed` (mra.h lines 124-129): `impl ?
impl->is_compressed() : false`.  No communication. -/
def Function.is_compressed : Option Rep → Bool
  | some r => r.isCompressed
  | none => false

/-- `Function::is_compressed` with the instrumented signature shared by the
other facade operations (communication counter in, `Except` out), to state
that it neither aborts nor communicates: the body is the same two-branch
read. -/
def Function.is_compressedC (f : Option Rep) (c : Nat) : Except Err (Bool × Nat) :=
  match f with
  | some r => .ok (r.isCompressed, c)
  | none => .ok (false, c)

/-- `Function::compress` (mra.h lines 139-142): return immediately when the
handle is uninitialized or the tree already compressed, otherwise delegate
to `impl->compress(fence)` (which issues communication: counter + 1). -/
def Function.compress (fence : Bool) (f : Option Rep) (c : Nat) :
    Except Err (Option Rep × Nat) :=
  match f with
  | none => .ok (none, c)
  | some r =>
    if Function.is_compressed (some r) then .ok (some r, c)
    else .ok (some (implCompress r), c + 1)

/-- `Function::reconstruct` (mra.h lines 152-155): return immediately when
the handle is uninitialized or the tree already reconstructed, otherwise
delegate to `impl->reconstruct(fence)` (which issues communication). -/
def Function.reconstruct (fence : Bool) (f : Option Rep) (c : Nat) :
    Except Err (Option Rep × Nat) :=
  match f with
  | none => .ok (none, c)
  | some r =>
    if !Function.is_compressed (some r) then .ok (some r, c)
    else .ok (some (implReconstruct r), c + 1)

/-- `Function::eval` (mra.h lines 112-119): `verify()` asserts that `impl`
is non-null (`MADNESS_ASSERT(impl)`), aborting on an uninitialized handle;
otherwise the point is evaluated through the implementation. -/
def Function.eval (f : Option Rep) (x : Coord) : Except Err ℚ :=
  match f with
  | none => .error (.assertFailed "MADNESS_ASSERT(impl) failed in Function::verify")
  | some (.sf t) => .ok (evalS t x)
  | some (.wav ct) => .ok (evalS (reconstructF meanU ct) x)

/-- `Function::get_impl` (mra.h lines 163-166): `verify()` then return the
shared pointer. -/
def Function.get_impl (f : Option Rep) : Except Err Rep :=
  match f with
  | none => .error (.assertFailed "MADNESS_ASSERT(impl) failed in Function::verify")
  | some r => .ok r

/-- `Function::print_tree` (mra.h line 159): `if (impl)
impl->print_tree();` — prints nothing and returns normally on an
uninitialized handle. -/
def Function.print_tree (f : Option Rep) : Except Err (List String) :=
  match f with
  | none => .ok []
  | some r => .ok (implPrint r)

/-!
## Shallow and deep copy (mra.h lines 92-102, 168-173, 180-185)

To distinguish aliasing from duplication the shared containers are made
explicit: a world owns a list of containers, and a handle is (an option of)
an index into that list — the model of the `SharedPtr` target.  Shallow
copy duplicates the index; `Function::copy` allocates a new container.
-/

/-- A `FunctionImpl` container as far as copying is concerned: its
coefficient data (what `copy_coeffs` copies) and its distribution map
(`pmap`), identified by an id (spec section 3: the map is shared and
read-only). -/
structure Container where
  coeffs : STree 8 ℚ
  pmap : Nat

/-- The collection of live containers; a handle holds an index into it. -/
structure CWorld where
  containers : List Container

/-- A function handle for the copy model: `none` is a null `impl`, `some i`
a shared pointer to container `i`. -/
abbrev CHandle := Option Nat

/-- `Function(const Function& f) : impl(f.impl)` (mra.h lines 93-95): the
copy constructor copies only the shared pointer; the world of containers is
untouched and no communication occurs. -/
def Function.copyCtor (w : CWorld) (f : CHandle) : CWorld × CHandle := (w, f)

/-- `Function::operator=` (mra.h lines 99-102): assignment replaces the
target handle's pointer by the source's; the world is untouched. -/
def Function.assign (w : CWorld) (dst src : CHandle) : CWorld × CHandle := (w, src)

/-- `Function::copy` (mra.h lines 168-173) and the free `madness::copy`
(lines 180-185): build a fresh container by `new implT(*impl, pmap)` —
under the given distribution map when one is supplied, else the source's —
and `copy_coeffs` the coefficient data into it; the result handle points at
the fresh container.  Requires an initialized handle (the C++ dereferences
`impl`). -/
def Function.deepCopy (w : CWorld) (i : Nat) (pmap : Option Nat) : CWorld × Nat :=
  let src := w.containers.getD i ⟨.leaf 0, 0⟩
  (⟨w.containers ++ [⟨src.coeffs, pmap.getD src.pmap⟩]⟩, w.containers.length)

/-!
## KAIN (linalg/kain.cc lines 27-73)

`KAIN(Q)` builds the reduced system `A c = b` from the Gram matrix `Q`,
solves it by the LAPACK least-squares driver `gelss` (external: modelled as
an opaque solver parameter), and completes the coefficient vector with
`c(m) = 1 - sum of the solution entries`.  Coefficients are exact
rationals. -/

/-- The reduced matrix `A(i,j) = Q(i,j) - Q(m,j) - Q(i,m) + Q(m,m)`
(kain.cc line 43), for `nvec = k + 2`, `m = k + 1`. -/
def KAIN_A (k : Nat) (Q : Fin (k + 2) → Fin (k + 2) → ℚ) :
    Fin (k + 1) → Fin (k + 1) → ℚ :=
  fun i j =>
    Q i.castSucc j.castSucc - Q (Fin.last (k + 1)) j.castSucc -
      Q i.castSucc (Fin.last (k + 1)) + Q (Fin.last (k + 1)) (Fin.last (k + 1))

/-- The right-hand side `b(i) = Q(m,m) - Q(i,m)` (kain.cc line 41). -/
def KAIN_b (k : Nat) (Q : Fin (k + 2) → Fin (k + 2) → ℚ) : Fin (k + 1) → ℚ :=
  fun i => Q (Fin.last (k + 1)) (Fin.last (k + 1)) - Q i.castSucc (Fin.last (k + 1))

/-- `KAIN` (kain.cc lines 27-73).  `n` is `nvec = Q.dim[0]`; `gelss` is the
opaque least-squares solver for the `(n-1) x (n-1)` system (LAPACK,
external).  When `nvec = 1` the single coefficient 1.0 is returned;
otherwise the first `n-1` coefficients are the least-squares solution `x`
and the last is `1 - sum x`.  `n = 0` cannot arise from a `Tensor` argument
and returns the empty vector. -/
def KAIN (n : Nat) (Q : Fin n → Fin n → ℚ)
    (gelss : (Fin (n - 1) → Fin (n - 1) → ℚ) → (Fin (n - 1) → ℚ) → (Fin (n - 1) → ℚ)) :
    List ℚ :=
  match n, Q, gelss with
  | 0, _, _ => []
  | 1, _, _ => [1]
  | k + 2, Q, gelss =>
    let x := gelss (KAIN_A k Q) (KAIN_b k Q)
    List.ofFn x ++ [1 - ∑ i, x i]

/-!
## Construction by adaptive refinement (spec section 4.1)

Modelled from the spec: the builder (`FunctionImpl` constructed from a
`FunctionFactory`, implemented in the missing `mra/funcimpl.h`) samples a
box, estimates the local truncation error from the projected coefficients,
and either keeps the box as a leaf or materializes its `2^NDIM` children
and recurses, discarding the parent's coefficients.

Every materialized box is identified by its path of child indices from the
root — spec section 3 guarantees the path to root is unique, so paths are
in bijection with Addresses (the path length is the level, its entries the
per-axis translation bits).  The builder's output is the materialized map
from boxes to scaling coefficient blocks, as an association list.

The distributed runtime executes the `2^m` child tasks of a box in
whatever order the scheduler picks; determinism of construction is the
statement that the materialized map does not depend on that order.  The
order is made explicit as a `sched` parameter giving, for each box, the
order in which its child subtrees are built and their outputs appended. -/

/-- The identity of a materialized box: its child-index path from the
root. -/
abbrev Path (m : Nat) := List (Fin m)

/-- Association-list lookup of a box's coefficient block in a builder
output. -/
def lookupP {m : Nat} {V : Type} : List (Path m × V) → Path m → Option V
  | [], _ => none
  | (q, v) :: rest, p => if q = p then some v else lookupP rest p

/-- Modelled from the spec (section 4.1): build the subtree rooted at box
`p`.  `coeffOf` is the composite of the user sampling callback with the
quadrature projection onto the box's polynomial basis (a pure function of
the box); `err` the heuristic truncation-error estimate from a coefficient
block; `eps` the threshold; `refine` the optional refine flag; `fuel` the
number of levels left below `p` before the maximum level cap.  A box whose
error estimate is within `eps`, or for which refinement is disabled or the
level cap reached, is materialized as a leaf with its scaling block;
otherwise its children are built recursively — in the order given by
`sched p` — and the parent materializes no coefficients. -/
def build {m : Nat} {V : Type} (coeffOf : Path m → V) (err : V → ℚ) (eps : ℚ)
    (refine : Bool) (sched : Path m → List (Fin m)) :
    Nat → Path m → List (Path m × V)
  | 0, p => [(p, coeffOf p)]
  | fuel + 1, p =>
    if err (coeffOf p) ≤ eps ∨ refine = false then [(p, coeffOf p)]
    else ((sched p).map (fun i =>
      build coeffOf err eps refine sched fuel (p ++ [i]))).flatten

/-!
## Concrete instances used by witnesses and counterexamples
-/

/-- Default container used for out-of-range reads in the copy model. -/
def dContainer : Container := ⟨.leaf 0, 0⟩

/-- A small concrete reconstructed tree: one refined box with eight leaf
children. -/
def tEx : STree 8 ℚ := .node (fun i => .leaf (i.val : ℚ))

/-- A concrete `XCfunctional`: non-polarized LDA with one functional of
weight one. -/
def xcLdaEx : XCfunctional := ⟨false, 0, [(.lda, 1)]⟩

/-- A concrete `XCfunctional` with an empty functional list. -/
def xcEmptyEx : XCfunctional := ⟨false, 0, []⟩

/-- A concrete spin-polarized `XCfunctional`. -/
def xcPolEx : XCfunctional := ⟨true, 0, []⟩

/-- A concrete libxc instance whose LDA energy evaluation returns a NaN,
standing for upstream numerical corruption (spec section 7). -/
def libNaN : LibXC :=
  ⟨fun _ _ => [none], fun _ _ _ => [], fun _ _ => [], fun _ _ _ => ([], []),
   fun _ _ => [], fun _ _ _ => ([], [], [])⟩

/-- A concrete munge: the identity screening. -/
def mungeId : MDouble → MDouble := id

/-- A concrete binary munge: keep the perturbed density. -/
def bmungeFst : MDouble → MDouble → MDouble := fun a _ => a

/-!
# Theorems
-/

/-- C1 counterexample: the claim says `compress`, `reconstruct`,
`is_compressed` and `print_tree` on an uninitialized (default-constructed)
handle all fail fatally; in the code (mra.h lines 139-142, 152-155, 124-129,
159) each of them returns normally — `compress` and `reconstruct` are
documented no-ops, `print_tree` prints nothing, `is_compressed` returns
false. -/
theorem C1_counterexample :
    Function.compress true none 0 = .ok (none, 0) ∧
    Function.reconstruct true none 0 = .ok (none, 0) ∧
    Function.print_tree none = .ok [] ∧
    Function.is_compressed none = false :=
  ⟨rfl, rfl, rfl, rfl⟩

/-- C1 (amended): on an uninitialized handle, `eval` and `get_impl` fail
fatally with the descriptive `MADNESS_ASSERT(impl)` abort from
`Function::verify`, whereas `compress`, `reconstruct` and `print_tree`
return silently without doing anything (no state change, no communication)
and `is_compressed` returns false. -/
theorem C1_uninitialized_semantics (x : Coord) (fence : Bool) (c : Nat) :
    Function.eval none x =
      .error (.assertFailed "MADNESS_ASSERT(impl) failed in Function::verify") ∧
    Function.get_impl none =
      .error (.assertFailed "MADNESS_ASSERT(impl) failed in Function::verify") ∧
    Function.compress fence none c = .ok (none, c) ∧
    Function.reconstruct fence none c = .ok (none, c) ∧
    Function.print_tree none = .ok [] ∧
    Function.is_compressed none = false :=
  ⟨rfl, rfl, rfl, rfl, rfl, rfl⟩

/-- C3: `compress` on an already-compressed tree and `reconstruct` on an
already-reconstructed tree are no-ops — the handle's state is returned
unchanged and the communication counter is untouched — and both are
likewise no-ops on an uninitialized handle (mra.h lines 139-142 and
152-155). -/
theorem C3_compress_reconstruct_noop (fence : Bool) (f : Option Rep) (c : Nat) :
    (f = none ∨ Function.is_compressed f = true →
      Function.compress fence f c = .ok (f, c)) ∧
    (f = none ∨ Function.is_compressed f = false →
      Function.reconstruct fence f c = .ok (f, c)) := by
  cases f with
  | none => exact ⟨fun _ => rfl, fun _ => rfl⟩
  | some r =>
    cases r with
    | sf t =>
      refine ⟨fun h => ?_, fun _ => rfl⟩
      rcases h with h | h
      · exact absurd h (by simp)
      · exact absurd h (by simp [Function.is_compressed, Rep.isCompressed])
    | wav ct =>
      refine ⟨fun _ => rfl, fun h => ?_⟩
      rcases h with h | h
      · exact absurd h (by simp)
      · exact absurd h (by simp [Function.is_compressed, Rep.isCompressed])

/-- C3 witness: the no-op equations at concrete inputs — the uninitialized
handle, and an initialized reconstructed handle passed to `reconstruct`. -/
theorem C3_compress_reconstruct_noop_witness :
    Function.compress true none 5 = .ok (none, 5) ∧
    Function.reconstruct true none 5 = .ok (none, 5) ∧
    Function.reconstruct false (some (.sf (.leaf 1))) 3 = .ok (some (.sf (.leaf 1)), 3) :=
  ⟨(C3_compress_reconstruct_noop true none 5).1 (Or.inl rfl),
   (C3_compress_reconstruct_noop true none 5).2 (Or.inl rfl),
   (C3_compress_reconstruct_noop false (some (.sf (.leaf 1))) 3).2 (Or.inr rfl)⟩

/-- C9: `is_compressed` on an uninitialized handle returns false — it
neither throws nor aborts — and on every handle it returns normally without
touching the communication counter (mra.h lines 124-129). -/
theorem C9_is_compressed_total :
    (∀ c : Nat, Function.is_compressedC none c = .ok (false, c)) ∧
    (∀ (f : Option Rep) (c : Nat), ∃ b, Function.is_compressedC f c = .ok (b, c)) := by
  refine ⟨fun _ => rfl, fun f c => ?_⟩
  cases f with
  | none => exact ⟨false, rfl⟩
  | some r => exact ⟨r.isCompressed, rfl⟩

/-- C5: copy construction and copy assignment are shallow — the handle
aliases the same container, the collection of containers is untouched and
no communication occurs — whereas `Function::copy` builds a new container,
at a fresh index distinct from the source, holding its own copy of the
coefficients, under the supplied distribution map when one is given (the
source's otherwise), and leaves every existing container unchanged
(mra.h lines 92-102, 168-173, 180-185). -/
theorem C5_copy_semantics (w : CWorld) (f dst : CHandle) (i : Nat) (pm : Option Nat)
    (h : i < w.containers.length) :
    Function.copyCtor w f = (w, f) ∧
    Function.assign w dst f = (w, f) ∧
    (Function.deepCopy w i pm).2 ≠ i ∧
    ((Function.deepCopy w i pm).1.containers.getD
        (Function.deepCopy w i pm).2 dContainer).coeffs =
      (w.containers.getD i dContainer).coeffs ∧
    ((Function.deepCopy w i pm).1.containers.getD
        (Function.deepCopy w i pm).2 dContainer).pmap =
      pm.getD (w.containers.getD i dContainer).pmap ∧
    (∀ k, k < w.containers.length →
      (Function.deepCopy w i pm).1.containers.getD k dContainer =
        w.containers.getD k dContainer) := by
  have hnew : ∀ d : Container,
      (Function.deepCopy w i pm).1.containers.getD
        (Function.deepCopy w i pm).2 d =
      ⟨(w.containers.getD i dContainer).coeffs,
        pm.getD (w.containers.getD i dContainer).pmap⟩ := by
    intro d
    simp [Function.deepCopy, List.getD, List.getElem?_append_right, dContainer]
  refine ⟨rfl, rfl, ?_, ?_, ?_, ?_⟩
  · simp only [Function.deepCopy]
    omega
  · rw [hnew]
  · rw [hnew]
  · intro k hk
    simp [Function.deepCopy, List.getD, List.getElem?_append_left, hk]

/-- C5 witness: the conclusions at a concrete one-container world,
deep-copying container 0 under a new distribution map id 9. -/
theorem C5_copy_semantics_witness :
    0 < (CWorld.mk [⟨.leaf 3, 7⟩]).containers.length ∧
    (Function.deepCopy ⟨[⟨.leaf 3, 7⟩]⟩ 0 (some 9)).2 ≠ 0 ∧
    ((Function.deepCopy ⟨[⟨.leaf 3, 7⟩]⟩ 0 (some 9)).1.containers.getD
        (Function.deepCopy ⟨[⟨.leaf 3, 7⟩]⟩ 0 (some 9)).2 dContainer).coeffs =
      ((CWorld.mk [⟨.leaf 3, 7⟩]).containers.getD 0 dContainer).coeffs ∧
    ((Function.deepCopy ⟨[⟨.leaf 3, 7⟩]⟩ 0 (some 9)).1.containers.getD
        (Function.deepCopy ⟨[⟨.leaf 3, 7⟩]⟩ 0 (some 9)).2 dContainer).pmap =
      (some 9).getD ((CWorld.mk [⟨.leaf 3, 7⟩]).containers.getD 0 dContainer).pmap :=
  ⟨Nat.zero_lt_one,
   (C5_copy_semantics ⟨[⟨.leaf 3, 7⟩]⟩ none none 0 (some 9) Nat.zero_lt_one).2.2.1,
   (C5_copy_semantics ⟨[⟨.leaf 3, 7⟩]⟩ none none 0 (some 9) Nat.zero_lt_one).2.2.2.1,
   (C5_copy_semantics ⟨[⟨.leaf 3, 7⟩]⟩ none none 0 (some 9) Nat.zero_lt_one).2.2.2.2.1⟩

/-- C8: `KAIN` returns a coefficient vector of length `nvec` whose entries
sum exactly to 1; for `nvec = 1` it is the single coefficient 1.0, and in
general the last coefficient is 1 minus the sum of the first `nvec - 1`
least-squares solution coefficients (kain.cc lines 27-73). -/
theorem C8_kain_coefficients (n : Nat) (Q : Fin n → Fin n → ℚ)
    (gelss : (Fin (n - 1) → Fin (n - 1) → ℚ) → (Fin (n - 1) → ℚ) → (Fin (n - 1) → ℚ))
    (h : 1 ≤ n) :
    (KAIN n Q gelss).length = n ∧
    (KAIN n Q gelss).sum = 1 ∧
    (n = 1 → KAIN n Q gelss = [1]) ∧
    (KAIN n Q gelss).getLast? =
      some (1 - ((KAIN n Q gelss).take (n - 1)).sum) := by
  match n, Q, gelss with
  | 0, _, _ => exact absurd h (by omega)
  | 1, Q, gelss =>
    refine ⟨rfl, by norm_num [KAIN], fun _ => rfl, by simp [KAIN]⟩
  | k + 2, Q, gelss =>
    have hK : KAIN (k + 2) Q gelss =
        List.ofFn (gelss (KAIN_A k Q) (KAIN_b k Q)) ++
          [1 - ∑ i, gelss (KAIN_A k Q) (KAIN_b k Q) i] := rfl
    have hlen : (List.ofFn (gelss (KAIN_A k Q) (KAIN_b k Q))).length = k + 1 :=
      List.length_ofFn _
    refine ⟨?_, ?_, fun hh => absurd hh (by omega), ?_⟩
    · simp [hK]
    · rw [hK, List.sum_append, List.sum_ofFn]
      simp
    · rw [hK]
      have ht : ∀ (l : List ℚ) (a : ℚ), l.length = k + 1 →
          List.take (k + 2 - 1) (l ++ [a]) = l := by
        intro l a hl
        rw [show k + 2 - 1 = l.length from by omega]
        exact List.take_left _ _
      rw [List.getLast?_concat, ht _ _ hlen, List.sum_ofFn]

/-- Auxiliary for C2: the reconstruct transform applied to the output of the
compress transform is the identity on reconstructed trees, whenever the
inverse two-scale filter `uF` really inverts the forward filter pair
`fS`/`fD`. -/
theorem reconstructW_compressT {m : Nat} {V D : Type}
    (fS : (Fin m → V) → V) (fD : (Fin m → V) → D) (uF : V → D → Fin m → V)
    (hinv : ∀ ss : Fin m → V, ∀ i, uF (fS ss) (fD ss) i = ss i) :
    ∀ t : STree m V,
      reconstructW uF (compressT fS fD t).1 (compressT fS fD t).2 = t := by
  intro t
  induction t with
  | leaf s => rfl
  | node c ih =>
    show STree.node _ = STree.node c
    simp only [compressT, reconstructW]
    congr 1
    funext i
    rw [hinv]
    exact ih i

/-- Auxiliary for C2: a pair drawn from the zip of a list with itself has
equal components. -/
theorem mem_zip_self {α : Type} : ∀ (l : List α) (pr : α × α), pr ∈ l.zip l → pr.1 = pr.2 := by
  intro l
  induction l with
  | nil => intro pr h; cases h
  | cons a l ih =>
    intro pr h
    rcases List.mem_cons.mp h with h | h
    · rw [h]
    · exact ih pr h

/-- C2: for every tree in the reconstructed representation, compressing and
then reconstructing returns it to the reconstructed representation with the
identical tree — in particular every leaf's original scaling coefficients
are reproduced exactly, hence within relative tolerance `1e-12`.  Modelled
from the spec, sections 4.2-4.3 (the transform implementation,
funcimpl.h/twoscale.h, is absent): the two-scale filter pair `fS`/`fD` and
its inverse `uF` are parameters, constrained by the inversion law the spec
assigns them. -/
theorem C2_compress_reconstruct_round_trip {m : Nat} {D : Type}
    (fS : (Fin m → ℚ) → ℚ) (fD : (Fin m → ℚ) → D) (uF : ℚ → D → Fin m → ℚ)
    (hinv : ∀ ss : Fin m → ℚ, ∀ i, uF (fS ss) (fD ss) i = ss i)
    (t : STree m ℚ) :
    reconstructF uF (compressF fS fD t) = t ∧
    ∀ pr ∈ (leafCoeffs (reconstructF uF (compressF fS fD t))).zip (leafCoeffs t),
      |pr.1 - pr.2| ≤ |pr.2| * (1 / 10 ^ 12) := by
  have hid : reconstructF uF (compressF fS fD t) = t :=
    reconstructW_compressT fS fD uF hinv t
  refine ⟨hid, ?_⟩
  rw [hid]
  intro pr hpr
  rw [mem_zip_self _ pr hpr]
  simp

/-- The inversion law for the concrete filter instance `meanS`/`meanD`/
`meanU`. -/
theorem mean_filter_inverse : ∀ ss : Fin 8 → ℚ, ∀ i,
    meanU (meanS ss) (meanD ss) i = ss i := by
  intro ss i
  simp only [meanS, meanD, meanU]
  ring

/-- C2 witness: the round trip at the concrete filter instance and the
concrete eight-leaf tree. -/
theorem C2_compress_reconstruct_round_trip_witness :
    (∀ ss : Fin 8 → ℚ, ∀ i, meanU (meanS ss) (meanD ss) i = ss i) ∧
    reconstructF meanU (compressF meanS meanD tEx) = tEx ∧
    ∀ pr ∈ (leafCoeffs (reconstructF meanU (compressF meanS meanD tEx))).zip (leafCoeffs tEx),
      |pr.1 - pr.2| ≤ |pr.2| * (1 / 10 ^ 12) :=
  ⟨mean_filter_inverse,
   (C2_compress_reconstruct_round_trip meanS meanD meanU mean_filter_inverse tEx).1,
   (C2_compress_reconstruct_round_trip meanS meanD meanU mean_filter_inverse tEx).2⟩

/-- Auxiliary: a result that passed the NaN defensive check contains no
NaN. -/
theorem nanCheck_ok {e : Err} {res r : List MDouble} (h : nanCheck e res = .ok r) :
    ∀ x ∈ r, isnan_x x = false := by
  unfold nanCheck at h
  split at h
  · simp at h
  · next hany =>
    injection h with h
    subst h
    intro x hx
    rcases Bool.eq_false_or_eq_true (isnan_x x) with ht | hf
    · exact absurd (List.any_eq_true.mpr ⟨x, hx, ht⟩) (by simp_all)
    · exact hf

/-- Auxiliary: every failure of `make_libxc_args` is a `MADNESS_EXCEPTION`
(never an assertion failure). -/
theorem make_libxc_args_no_assert (xc : XCfunctional)
    (munge : MDouble → MDouble) (bmunge : MDouble → MDouble → MDouble)
    (t : List (List MDouble)) (nr : Bool) (e : Err)
    (h : make_libxc_args xc munge bmunge t nr = .error e) :
    ∃ s, e = .madnessException s := by
  unfold make_libxc_args at h
  repeat' split at h
  all_goals first
    | (injection h with h; exact ⟨_, h.symm⟩)
    | (injection h)
    | simp at h

/-- Auxiliary: every failure of one intermediate-tensor update in the
`fxc_apply` loop is a `MADNESS_EXCEPTION`. -/
theorem fxcInterUpdate_no_assert (lib : LibXC) (np : Nat) (contrib : XContrib)
    (rho sigma : List MDouble) (fam : XCFamily) (inter : FxcInter) (e : Err)
    (h : fxcInterUpdate lib np contrib rho sigma fam inter = .error e) :
    ∃ s, e = .madnessException s := by
  unfold fxcInterUpdate at h
  repeat' split at h
  all_goals first
    | (injection h with h; exact ⟨_, h.symm⟩)
    | (injection h)
    | simp at h

/-- Auxiliary: every failure of the `result1` computation in the
`fxc_apply` loop is a `MADNESS_EXCEPTION`. -/
theorem fxcResult1_no_assert (xc : XCfunctional) (contrib : XContrib)
    (rho_pt sigma_pt : List MDouble) (inter : FxcInter) (e : Err)
    (h : fxcResult1 xc contrib rho_pt sigma_pt inter = .error e) :
    ∃ s, e = .madnessException s := by
  unfold fxcResult1 at h
  repeat' split at h
  all_goals first
    | (injection h with h; exact ⟨_, h.symm⟩)
    | (injection h)
    | simp at h

/-- Auxiliary: every failure of the `fxc_apply` accumulation loop is a
`MADNESS_EXCEPTION`. -/
theorem fxcLoop_no_assert (xc : XCfunctional) (lib : LibXC) (np : Nat)
    (contrib : XContrib) (rho sigma rho_pt sigma_pt : List MDouble) :
    ∀ (funcs : List (XCFamily × ℚ)) (inter : FxcInter) (result : List MDouble)
      (e : Err),
      fxcLoop xc lib np contrib rho sigma rho_pt sigma_pt funcs inter result =
        .error e →
      ∃ s, e = .madnessException s := by
  intro funcs
  induction funcs with
  | nil => intro inter result e h; simp [fxcLoop] at h
  | cons fw rest ih =>
    intro inter result e h
    rcases fw with ⟨fam, w⟩
    rw [fxcLoop] at h
    split at h
    · next heq =>
      injection h with h
      subst h
      exact fxcInterUpdate_no_assert lib np contrib rho sigma fam inter _ heq
    · split at h
      · next heq =>
        injection h with h
        subst h
        exact fxcResult1_no_assert xc contrib rho_pt sigma_pt _ _ heq
      · exact ih _ _ _ h

/-- Auxiliary: every failure of the tail of `fxc_apply` after
`make_libxc_args` is a `MADNESS_EXCEPTION`. -/
theorem fxcFinish_no_assert (xc : XCfunctional) (lib : LibXC) (np : Nat)
    (contrib : XContrib) (rho sigma rho_pt sigma_pt : List MDouble) (e : Err)
    (h : fxcFinish xc lib np contrib rho sigma rho_pt sigma_pt = .error e) :
    ∃ s, e = .madnessException s := by
  unfold fxcFinish at h
  split at h
  · next heq =>
    injection h with h
    subst h
    exact fxcLoop_no_assert xc lib np contrib rho sigma rho_pt sigma_pt _ _ _ _ heq
  · unfold nanCheck at h
    split at h
    · injection h with h; exact ⟨_, h.symm⟩
    · simp at h

/-- Auxiliary: every failure of the `fxc_apply` body (everything after the
two entry assertions) is a `MADNESS_EXCEPTION` — the assertion-failure
branch cannot be reached from the body. -/
theorem fxcBody_no_assert (xc : XCfunctional) (lib : LibXC)
    (munge : MDouble → MDouble) (bmunge : MDouble → MDouble → MDouble)
    (t : List (List MDouble)) (contrib : XContrib) (e : Err)
    (h : fxcBody xc lib munge bmunge t contrib = .error e) :
    ∃ s, e = .madnessException s := by
  unfold fxcBody at h
  split at h
  · next heq =>
    injection h with h
    subst h
    exact make_libxc_args_no_assert xc munge bmunge t true _ heq
  · exact fxcFinish_no_assert _ _ _ _ _ _ _ _ _ h

/-- Auxiliary: a successful `vxc` tail contains no NaN, by the final
defensive check. -/
theorem vxcFinish_ok {xc : XCfunctional} {lib : LibXC} {np ispin : Nat}
    {contrib : XContrib} {rho sigma : List MDouble} {r : List MDouble}
    (h : vxcFinish xc lib np ispin contrib rho sigma = .ok r) :
    ∀ x ∈ r, isnan_x x = false := by
  unfold vxcFinish at h
  split at h
  · simp at h
  · exact nanCheck_ok h

/-- Auxiliary: a successful `fxc_apply` tail contains no NaN, by the final
defensive check. -/
theorem fxcFinish_ok {xc : XCfunctional} {lib : LibXC} {np : Nat}
    {contrib : XContrib} {rho sigma rho_pt sigma_pt : List MDouble}
    {r : List MDouble}
    (h : fxcFinish xc lib np contrib rho sigma rho_pt sigma_pt = .ok r) :
    ∀ x ∈ r, isnan_x x = false := by
  unfold fxcFinish at h
  split at h
  · simp at h
  · exact nanCheck_ok h

/-- C4 counterexample: the claim says each of `exc`, `vxc` and `fxc_apply`
checks its output and fails fatally on any NaN, so a NaN-containing result
is never returned; but `exc` (lines 307-348) performs no NaN check and here
returns a NaN-containing array normally when the external functional
produces a NaN. -/
theorem C4_counterexample :
    exc xcLdaEx libNaN mungeId bmungeFst [[some 1]] = .ok [none] ∧
    isnan_x none = true :=
  ⟨rfl, rfl⟩

/-- C4 (amended): `vxc` (lines 442-444) and `fxc_apply` (lines 549-551)
check their output array and fail fatally if any element is NaN, so neither
ever returns a NaN-containing result; `exc` performs no such check and can
return a NaN-containing result. -/
theorem C4_vxc_fxc_nan_check (xc : XCfunctional) (lib : LibXC)
    (munge : MDouble → MDouble) (bmunge : MDouble → MDouble → MDouble)
    (t : List (List MDouble)) (ispin : Nat) (contrib : XContrib)
    (r r' : List MDouble) :
    (vxc xc lib munge bmunge t ispin contrib = .ok r →
      ∀ x ∈ r, isnan_x x = false) ∧
    (fxc_apply xc lib munge bmunge t ispin contrib = .ok r' →
      ∀ x ∈ r', isnan_x x = false) := by
  constructor
  · intro h
    unfold vxc at h
    split at h
    · simp at h
    · exact vxcFinish_ok h
  · intro h
    unfold fxc_apply at h
    split at h
    · simp at h
    · split at h
      · simp at h
      · unfold fxcBody at h
        split at h
        · simp at h
        · exact fxcFinish_ok h

/-- C4 witness: both implications at concrete calls (empty functional list)
that return `.ok [some 0]`. -/
theorem C4_vxc_fxc_nan_check_witness :
    (∀ x ∈ [(some 0 : MDouble)], isnan_x x = false) ∧
    (∀ x ∈ [(some 0 : MDouble)], isnan_x x = false) :=
  ⟨(C4_vxc_fxc_nan_check xcEmptyEx libNaN mungeId bmungeFst [[some 1]] 0
      .potential_rho [some 0] [some 0]).1 rfl,
   (C4_vxc_fxc_nan_check xcEmptyEx libNaN mungeId bmungeFst [[some 1]] 0
      .potential_rho [some 0] [some 0]).2 rfl⟩

/-- C10: `fxc_apply` asserts `!spin_polarized` and `ispin == 0` on entry
(lines 453-454): under these preconditions no assertion failure can be
produced (the body raises only `MADNESS_EXCEPTION`s), and any call
violating them returns the corresponding assertion failure immediately —
the result is the fixed assertion error, independent of every other
argument, so no computation happens first. -/
theorem C10_fxc_apply_assertions (xc : XCfunctional) (lib : LibXC)
    (munge : MDouble → MDouble) (bmunge : MDouble → MDouble → MDouble)
    (t : List (List MDouble)) (ispin : Nat) (contrib : XContrib) :
    (xc.spin_polarized = false → ispin = 0 →
      ∀ s, fxc_apply xc lib munge bmunge t ispin contrib ≠
        .error (.assertFailed s)) ∧
    (xc.spin_polarized = true →
      fxc_apply xc lib munge bmunge t ispin contrib =
        .error (.assertFailed "!spin_polarized")) ∧
    (xc.spin_polarized = false → ispin ≠ 0 →
      fxc_apply xc lib munge bmunge t ispin contrib =
        .error (.assertFailed "ispin==0")) := by
  refine ⟨?_, ?_, ?_⟩
  · intro hsp hin s hcontra
    unfold fxc_apply at hcontra
    rw [hsp] at hcontra
    simp only [Bool.false_eq_true, if_false, hin] at hcontra
    simp at hcontra
    obtain ⟨s', hs'⟩ :=
      fxcBody_no_assert xc lib munge bmunge t contrib _ hcontra
    cases hs'
  · intro hsp
    unfold fxc_apply
    rw [hsp]
    simp
  · intro hsp hin
    unfold fxc_apply
    rw [hsp]
    simp [hin]

/-- C10 witness: the three conclusions at concrete calls — a valid call (no
assertion failure), a spin-polarized call, and a call with `ispin = 1`. -/
theorem C10_fxc_apply_assertions_witness :
    fxc_apply xcEmptyEx libNaN mungeId bmungeFst [[some 1]] 0 .potential_rho ≠
      .error (.assertFailed "boom") ∧
    fxc_apply xcPolEx libNaN mungeId bmungeFst [[some 1]] 0 .potential_rho =
      .error (.assertFailed "!spin_polarized") ∧
    fxc_apply xcEmptyEx libNaN mungeId bmungeFst [[some 1]] 1 .potential_rho =
      .error (.assertFailed "ispin==0") :=
  ⟨(C10_fxc_apply_assertions xcEmptyEx libNaN mungeId bmungeFst [[some 1]] 0
      .potential_rho).1 rfl rfl "boom",
   (C10_fxc_apply_assertions xcPolEx libNaN mungeId bmungeFst [[some 1]] 0
      .potential_rho).2.1 rfl,
   (C10_fxc_apply_assertions xcEmptyEx libNaN mungeId bmungeFst [[some 1]] 1
      .potential_rho).2.2 rfl (by omega)⟩

/-- Auxiliary for C7: two lists that agree after a common left context have
the same head there. -/
theorem append_cons_inj {α : Type} (p : List α) (a b : α) (s t : List α)
    (h : p ++ a :: s = p ++ b :: t) : a = b := by
  induction p with
  | nil =>
    simp only [List.nil_append] at h
    injection h
  | cons x p ih =>
    simp only [List.cons_append] at h
    injection h with _ h2
    exact ih h2

/-- Auxiliary for C7: lookup in an appended association list prefers the
left part. -/
theorem lookupP_append {m : Nat} {V : Type} (xs ys : List (Path m × V)) (p : Path m) :
    lookupP (xs ++ ys) p =
      match lookupP xs p with
      | some v => some v
      | none => lookupP ys p := by
  induction xs with
  | nil => rfl
  | cons a xs ih =>
    rcases a with ⟨q, v⟩
    by_cases hq : q = p
    · simp [lookupP, hq]
    · simp [lookupP, hq, ih]

/-- Auxiliary for C7: lookup misses a list containing no binding for the
target. -/
theorem lookupP_none {m : Nat} {V : Type} (xs : List (Path m × V)) (b : Path m)
    (h : ∀ q v, (q, v) ∈ xs → q ≠ b) : lookupP xs b = none := by
  induction xs with
  | nil => rfl
  | cons a xs ih =>
    rcases a with ⟨q, v⟩
    have hq : q ≠ b := h q v (by simp)
    simp only [lookupP, if_neg hq]
    exact ih (fun q' v' hm => h q' v' (by simp [hm]))

/-- Auxiliary for C7: every box materialized below root box `p` lies in the
subtree of `p` — its path extends `p`. -/
theorem build_keys {m : Nat} {V : Type} (coeffOf : Path m → V) (err : V → ℚ)
    (eps : ℚ) (refine : Bool) (sched : Path m → List (Fin m)) :
    ∀ (fuel : Nat) (p q : Path m) (v : V),
      (q, v) ∈ build coeffOf err eps refine sched fuel p → ∃ t, q = p ++ t := by
  intro fuel
  induction fuel with
  | zero =>
    intro p q v h
    simp [build] at h
    exact ⟨[], by simp [h.1]⟩
  | succ f ih =>
    intro p q v h
    simp only [build] at h
    split at h
    · simp at h
      exact ⟨[], by simp [h.1]⟩
    · simp only [List.mem_flatten, List.mem_map] at h
      obtain ⟨l, ⟨i, hi, rfl⟩, hmem⟩ := h
      obtain ⟨t, ht⟩ := ih (p ++ [i]) q v hmem
      exact ⟨i :: t, by simp [ht]⟩

/-- Auxiliary for C7: lookup misses every flattened block when each block
misses it. -/
theorem lookupP_flatten_none {m : Nat} {V : Type} (B : Fin m → List (Path m × V))
    (b : Path m) :
    ∀ l : List (Fin m), (∀ j ∈ l, lookupP (B j) b = none) →
      lookupP ((l.map B).flatten) b = none := by
  intro l
  induction l with
  | nil => intro _; rfl
  | cons j l ih =>
    intro h
    have hfl : ((j :: l).map B).flatten = B j ++ (l.map B).flatten := by simp
    rw [hfl, lookupP_append, h j (by simp)]
    exact ih (fun j' hj' => h j' (by simp [hj']))

/-- Auxiliary for C7: when a single block can contain the target, lookup in
the flattened blocks is lookup in that block, regardless of the order or
multiplicity of the others. -/
theorem lookupP_flatten_single {m : Nat} {V : Type} (B : Fin m → List (Path m × V))
    (b : Path m) (i0 : Fin m)
    (hnone : ∀ j, j ≠ i0 → lookupP (B j) b = none) :
    ∀ l : List (Fin m), i0 ∈ l →
      lookupP ((l.map B).flatten) b = lookupP (B i0) b := by
  intro l
  induction l with
  | nil => intro h; cases h
  | cons j l ih =>
    intro hmem
    have hfl : ((j :: l).map B).flatten = B j ++ (l.map B).flatten := by simp
    rw [hfl, lookupP_append]
    by_cases hj : j = i0
    · subst hj
      cases hlk : lookupP (B j) b with
      | some v => rfl
      | none =>
        show lookupP ((l.map B).flatten) b = none
        apply lookupP_flatten_none
        intro j' hj'
        by_cases h' : j' = j
        · rw [h']; exact hlk
        · exact hnone j' (fun he => h' he)
    · rw [hnone j hj]
      have hi : i0 ∈ l := by
        rcases List.mem_cons.mp hmem with h | h
        · exact absurd h.symm hj
        · exact h
      exact ih hi

/-- Auxiliary for C7: the materialized map produced by the builder does not
depend on the schedule (the per-box order in which child subtrees are
built), for any root box. -/
theorem build_sched_indep {m : Nat} {V : Type} (coeffOf : Path m → V)
    (err : V → ℚ) (eps : ℚ) (refine : Bool)
    (s₁ s₂ : Path m → List (Fin m))
    (h₁ : ∀ p, List.Perm (s₁ p) (List.finRange m))
    (h₂ : ∀ p, List.Perm (s₂ p) (List.finRange m)) :
    ∀ (fuel : Nat) (p b : Path m),
      lookupP (build coeffOf err eps refine s₁ fuel p) b =
        lookupP (build coeffOf err eps refine s₂ fuel p) b := by
  intro fuel
  induction fuel with
  | zero => intro p b; rfl
  | succ f ih =>
    intro p b
    by_cases hc : err (coeffOf p) ≤ eps ∨ refine = false
    · simp only [build, if_pos hc]
    · simp only [build, if_neg hc]
      by_cases hb : ∃ i : Fin m, ∃ t, b = p ++ i :: t
      · obtain ⟨i0, t, hbt⟩ := hb
        have hnone : ∀ (s : Path m → List (Fin m)) (j : Fin m), j ≠ i0 →
            lookupP (build coeffOf err eps refine s f (p ++ [j])) b = none := by
          intro s j hj
          apply lookupP_none
          intro q v hm hqb
          obtain ⟨t', ht'⟩ := build_keys coeffOf err eps refine s f (p ++ [j]) q v hm
          rw [hqb, hbt, List.append_assoc, List.singleton_append] at ht'
          exact hj (append_cons_inj p i0 j t t' ht').symm
        have hm₁ : i0 ∈ s₁ p := (h₁ p).mem_iff.mpr (List.mem_finRange i0)
        have hm₂ : i0 ∈ s₂ p := (h₂ p).mem_iff.mpr (List.mem_finRange i0)
        rw [lookupP_flatten_single _ b i0 (hnone s₁) (s₁ p) hm₁,
          lookupP_flatten_single _ b i0 (hnone s₂) (s₂ p) hm₂]
        exact ih (p ++ [i0]) b
      · have hall : ∀ (s : Path m → List (Fin m)) (j : Fin m),
            lookupP (build coeffOf err eps refine s f (p ++ [j])) b = none := by
          intro s j
          apply lookupP_none
          intro q v hm hqb
          obtain ⟨t', ht'⟩ := build_keys coeffOf err eps refine s f (p ++ [j]) q v hm
          exact hb ⟨j, t', by rw [← hqb, ht', List.append_assoc, List.singleton_append]⟩
        rw [lookupP_flatten_none _ b (s₁ p) (fun j _ => hall s₁ j),
          lookupP_flatten_none _ b (s₂ p) (fun j _ => hall s₂ j)]

/-- C7: tree construction by adaptive refinement is deterministic — for a
fixed pure sampling callback (composed with the projection into `coeffOf`),
fixed error estimator, threshold, refine flag and level budget, two
constructions from identical inputs materialize identical boxes with
identical coefficient blocks, whatever order the runtime schedules the
child subtrees in.  The result is the reconstructed representation: only
leaves carry blocks.  Modelled from the spec, section 4.1 (funcimpl.h is
absent); boxes are identified by their unique root path, in bijection with
Addresses (spec section 3). -/
theorem C7_build_deterministic {m : Nat} {V : Type} (coeffOf : Path m → V)
    (err : V → ℚ) (eps : ℚ) (refine : Bool)
    (s₁ s₂ : Path m → List (Fin m))
    (h₁ : ∀ p, List.Perm (s₁ p) (List.finRange m))
    (h₂ : ∀ p, List.Perm (s₂ p) (List.finRange m)) (fuel : Nat) (b : Path m) :
    lookupP (build coeffOf err eps refine s₁ fuel []) b =
      lookupP (build coeffOf err eps refine s₂ fuel []) b :=
  build_sched_indep coeffOf err eps refine s₁ s₂ h₁ h₂ fuel [] b

/-- Auxiliary for the C7 witness: the in-order schedule is a permutation of
the children of every box (the box argument is unused). -/
theorem permEx01 (p : Path 2) : List.Perm [(0 : Fin 2), 1] (List.finRange 2) := by
  decide

/-- Auxiliary for the C7 witness: the reversed schedule is a permutation of
the children of every box. -/
theorem permEx10 (p : Path 2) : List.Perm [(1 : Fin 2), 0] (List.finRange 2) := by
  decide

/-- C7 witness: two constructions of a depth-two tree under opposite child
schedules agree at a concrete box. -/
theorem C7_build_deterministic_witness :
    (∀ p : Path 2, List.Perm [(0 : Fin 2), 1] (List.finRange 2)) ∧
    (∀ p : Path 2, List.Perm [(1 : Fin 2), 0] (List.finRange 2)) ∧
    lookupP (build (fun _ : Path 2 => (1 : ℚ)) (fun v => v) 0 true
        (fun _ => [0, 1]) 2 []) [0, 1] =
      lookupP (build (fun _ : Path 2 => (1 : ℚ)) (fun v => v) 0 true
        (fun _ => [1, 0]) 2 []) [0, 1] :=
  ⟨permEx01, permEx10,
   C7_build_deterministic (fun _ : Path 2 => (1 : ℚ)) (fun v => v) 0 true
     (fun _ => [0, 1]) (fun _ => [1, 0]) permEx01 permEx10 2 [0, 1]⟩

/-- C8 witness: the conclusions at the concrete 2x2 zero Gram matrix with an
opaque solver returning the constant 5. -/
theorem C8_kain_coefficients_witness :
    1 ≤ 2 ∧
    (KAIN 2 (fun _ _ => 0) (fun _ _ _ => 5)).length = 2 ∧
    (KAIN 2 (fun _ _ => 0) (fun _ _ _ => 5)).sum = 1 ∧
    (KAIN 2 (fun _ _ => 0) (fun _ _ _ => 5)).getLast? =
      some (1 - ((KAIN 2 (fun _ _ => 0) (fun _ _ _ => 5)).take (2 - 1)).sum) := by
  have hc := C8_kain_coefficients 2 (fun _ _ => 0) (fun _ _ _ => 5) (by omega)
  exact ⟨by omega, hc.1, hc.2.1, hc.2.2.2⟩

end Madness
